import Mathlib

/-!
Verification of the curated gothic shop server.

This file gives a shallow embedding of the JavaScript source
(src/server.js and the browser script) into Lean and proves the
spec-level claims about it.  JavaScript strings are modelled by Lean
strings, with the JS operations (toLowerCase, trim, includes, truthiness)
embedded as explicit functions over the underlying character lists.
Absent JSON fields are modelled by Option; JS array operations
(find, findIndex, splice, push, in-place assignment) are modelled by
their Lean list counterparts.
-/

namespace CuratedShop

/-- Model of JavaScript String.prototype.toLowerCase (the catalog data is
ASCII, where Char.toLower agrees with the JS Unicode lowering). -/
def jsToLower (s : String) : String :=
  String.mk (s.data.map Char.toLower)

/-- Model of JavaScript String.prototype.trim: drop whitespace from both
ends of the character list. -/
def jsTrim (s : String) : String :=
  String.mk (((s.data.dropWhile Char.isWhitespace).reverse.dropWhile
    Char.isWhitespace).reverse)

/-- Truthiness of a JS string: every string except the empty one. -/
def strTruthy (s : String) : Bool :=
  !s.data.isEmpty

/-- Truthiness of a JS value that is either undefined or a string. -/
def optTruthy : Option String → Bool
  | none => false
  | some s => strTruthy s

/-- Helper for substring search: does the second list start with the
first one? -/
def startsChars : List Char → List Char → Bool
  | [], _ => true
  | _ :: _, [] => false
  | p :: ps, c :: cs => p == c && startsChars ps cs

/-- Does the pattern occur contiguously somewhere in the list? -/
def containsChars (pat : List Char) : List Char → Bool
  | [] => pat.isEmpty
  | c :: cs => startsChars pat (c :: cs) || containsChars pat cs

/-- Model of JavaScript String.prototype.includes: s.includes(pat). -/
def jsIncludes (s pat : String) : Bool :=
  containsChars pat.data s.data

/-- Catalog item as served by the back end (items.json shape): the search
field is the precomputed lowercase searchable text. -/
structure Item where
  category : String
  name : String
  image : String
  description : String
  link : String
  search : String
deriving DecidableEq

/-- Fallback item as embedded in the browser script (no search field). -/
structure FItem where
  category : String
  name : String
  image : String
  description : String
  link : String
deriving DecidableEq

/-- The fallbackItems array embedded in the browser script. -/
def fallbackItems : List FItem := [
  { category := "clothing", name := "Velvet Lace Jacket",
    image := "https://images.unsplash.com/photo-1519415943484-c1a66774406f?auto=format&fit=crop&w=800&q=50",
    description := "An elegant velvet jacket with lace trim inspired by Victorian gothic fashion.",
    link := "https://gothicplus.com?ref=caryn-curations" },
  { category := "clothing", name := "Ruffled Maxi Dress",
    image := "https://images.unsplash.com/photo-1514995567534-be1939c1e536?auto=format&fit=crop&w=800&q=50",
    description := "Flowing dress with ruffled sleeves and corset-inspired bodice.",
    link := "https://prettyattitude.com?ref=caryn-curations" },
  { category := "clothing", name := "Steampunk Waistcoat",
    image := "https://images.unsplash.com/photo-1543076447-215ad9ba6923?auto=format&fit=crop&w=800&q=50",
    description := "Tailored waistcoat with brass buttons and brocade pattern.",
    link := "https://darkattitude.com?ref=caryn-curations" },
  { category := "accessories", name := "Silver Crescent Necklace",
    image := "https://images.unsplash.com/photo-1517336714731-489689fd1ca8?auto=format&fit=crop&w=800&q=50",
    description := "Delicate sterling necklace featuring a crescent moon and gemstone pendant.",
    link := "https://hellaholics.com?ref=caryn-curations" },
  { category := "accessories", name := "Victorian Lace Gloves",
    image := "https://images.unsplash.com/photo-1556228914-e6bb65a11531?auto=format&fit=crop&w=800&q=50",
    description := "Soft lace gloves reminiscent of Victorian gothic elegance.",
    link := "https://shopcursedcloset.com?ref=caryn-curations" },
  { category := "accessories", name := "Leather Choker with O-Ring",
    image := "https://images.unsplash.com/photo-1517849845537-4d257902454a?auto=format&fit=crop&w=800&q=50",
    description := "Simple yet edgy choker crafted from black leather with a metal O-ring.",
    link := "https://attitudeclothing.com?ref=caryn-curations" },
  { category := "home", name := "Candle Holder Set",
    image := "https://images.unsplash.com/photo-1530199202256-d8d7c90a6a92?auto=format&fit=crop&w=800&q=50",
    description := "Black wrought iron candle holders to cast a warm gothic glow.",
    link := "https://blackangelonline.com?ref=caryn-curations" },
  { category := "home", name := "Skull Planter",
    image := "https://images.unsplash.com/photo-1513908957991-3d5a21a58218?auto=format&fit=crop&w=800&q=50",
    description := "A ceramic skull planter perfect for succulents or herbs.",
    link := "https://spiraldirect.com?ref=caryn-curations" },
  { category := "home", name := "Baroque Mirror",
    image := "https://images.unsplash.com/photo-1591736832069-e8265b64c049?auto=format&fit=crop&w=800&q=50",
    description := "Ornate baroque-style mirror to adorn your gothic boudoir.",
    link := "https://prettyattitude.com?ref=caryn-curations" }
]

/-- Modelled from the spec: items.json is not under src, only its
consumers are.  Per the data model section, a catalog item carries the
same fields as a fallback item plus the precomputed search field, the
lowercase concatenation of name and description. -/
def toCatalogItem (f : FItem) : Item :=
  { category := f.category, name := f.name, image := f.image,
    description := f.description, link := f.link,
    search := jsToLower (f.name ++ " " ++ f.description) }

/-- Modelled from the spec: items.json is not under src, only its
consumers are.  Per the data model section, the catalog holds the same
nine curated products as the browser fallback list. -/
def itemsJson : List Item :=
  fallbackItems.map toCatalogItem

/-- GET /api/search handler from src/server.js: lowercase the raw query
(with absent query modelled as the empty string), return the whole
catalog when the lowered query is falsy, otherwise keep the items whose
lowercased search field includes the lowered query. -/
def serverSearch (q : String) (catalog : List Item) : List Item :=
  let query := jsToLower q
  if !(strTruthy query) then catalog
  else catalog.filter (fun item => jsIncludes (jsToLower item.search) query)

/-- Body field of a JSON request: absent, present but not a string, or a
string. -/
inductive JsField where
  | missing
  | notString
  | str (s : String)
deriving DecidableEq

/-- Outcome of the subscribe handler. -/
inductive SubscribeRes where
  | invalidInput
  | duplicate
  | ok
deriving DecidableEq

/-- POST /api/subscribe handler from src/server.js: reject a missing,
non-string or falsy (empty) email; look for a stored address with the
same lowercasing and reject when that found value is truthy; otherwise
push the address onto the store.  Returns the outcome and the resulting
subscriber store. -/
def subscribe (subs : List String) (email : JsField) :
    SubscribeRes × List String :=
  match email with
  | .missing => (.invalidInput, subs)
  | .notString => (.invalidInput, subs)
  | .str s =>
    if !(strTruthy s) then (.invalidInput, subs)
    else
      match subs.find? (fun e => jsToLower e == jsToLower s) with
      | some e => if strTruthy e then (.duplicate, subs) else (.ok, subs ++ [s])
      | none => (.ok, subs ++ [s])

/-- Affiliate record as stored (id, name, link, optional banner,
description and categories). -/
structure Affiliate where
  id : Int
  name : String
  link : String
  banner : Option String
  description : Option String
  categories : Option (List String)
deriving DecidableEq

/-- Body of POST /api/affiliates: optional id plus the record fields. -/
structure AffBody where
  id : Option Int
  name : String
  link : String
  banner : Option String
  description : Option String
  categories : Option (List String)
deriving DecidableEq

/-- Outcome of the affiliate upsert handler. -/
inductive UpsertRes where
  | invalidInput
  | notFound
  | saved
deriving DecidableEq

/-- Outcome of the affiliate delete handler. -/
inductive RemoveRes where
  | notFound
  | removed
deriving DecidableEq

/-- Truthiness of the optional numeric id field: absent and zero are
falsy. -/
def idTruthy : Option Int → Bool
  | none => false
  | some v => v != 0

/-- Model of Array.prototype.findIndex, with the not-found result -1
modelled as none. -/
def jsFindIndex (p : α → Bool) : List α → Option Nat
  | [] => none
  | x :: xs => if p x then some 0 else (jsFindIndex p xs).map (· + 1)

/-- Model of Math.max over a spread array.  The handler only evaluates it
behind a positive length check, so the empty case is unreachable there. -/
def jsMax : List Int → Int
  | [] => 0
  | x :: xs => xs.foldl max x

/-- Fresh id chosen by the create branch of the upsert handler. -/
def newAffId (affs : List Affiliate) : Int :=
  if affs.length > 0 then jsMax (affs.map (·.id)) + 1 else 1

/-- Record built by the affiliate handler from the posted body fields
and a chosen id. -/
def bodyRecord (v : Int) (b : AffBody) : Affiliate :=
  { id := v, name := b.name, link := b.link, banner := b.banner,
    description := b.description, categories := b.categories }

/-- POST /api/affiliates handler from src/server.js (after the admin
gate): reject a falsy name or link; on a truthy id, find the record with
that id and replace it in place, or answer not-found; on a falsy id,
append a new record carrying the fresh id. -/
def upsert (affs : List Affiliate) (b : AffBody) : UpsertRes × List Affiliate :=
  if !(strTruthy b.name) || !(strTruthy b.link) then (.invalidInput, affs)
  else if idTruthy b.id then
    let v := b.id.getD 0
    match jsFindIndex (fun a => a.id == v) affs with
    | none => (.notFound, affs)
    | some idx => (.saved, affs.set idx (bodyRecord v b))
  else
    (.saved, affs ++ [bodyRecord (newAffId affs) b])

/-- DELETE /api/affiliates/:id handler from src/server.js (after the
admin gate): find the record with the given id and splice it out, or
answer not-found. -/
def remove (affs : List Affiliate) (v : Int) : RemoveRes × List Affiliate :=
  match jsFindIndex (fun a => a.id == v) affs with
  | none => (.notFound, affs)
  | some idx => (.removed, affs.eraseIdx idx)

/-- Outcome of the notify handler. -/
inductive NotifyRes where
  | badRequest
  | sent (message : String)
deriving DecidableEq

/-- POST /api/notify handler from src/server.js.  The transport is
modelled by a boolean outcome per subscriber address: true when that
send fulfills, false when it rejects.  A falsy subject or content is
rejected; otherwise one send per subscriber is issued, all outcomes are
awaited, the fulfilled and rejected outcomes are counted, and the
aggregate message is reported. -/
def notify (subs : List String) (sendOk : String → Bool)
    (subject content : Option String) : NotifyRes :=
  if !(optTruthy subject) || !(optTruthy content) then .badRequest
  else
    let results := subs.map sendOk
    let fulfilled := (results.filter (fun r => r == true)).length
    let rejected := (results.filter (fun r => r == false)).length
    .sent ("Notification sent: " ++ toString fulfilled ++ " succeeded, " ++
      toString rejected ++ " failed.")

/-- requireAdmin middleware from src/server.js.  The expected token is
the ADMIN_TOKEN environment variable (absent modelled as none), the
provided one is the X-Admin-Token header (absent modelled as none).
With a falsy expected token every request passes; otherwise the request
passes exactly when the provided header is truthy and equal to it. -/
def requireAdmin (provided expected : Option String) : Bool :=
  if !(optTruthy expected) then true
  else if !(optTruthy provided) || !(provided == expected) then false
  else true

/-- Result of an admin-gated route: rejected by the middleware, or the
underlying handler outcome. -/
inductive AdminGated (α : Type) where
  | unauthorized
  | allowed (r : α)
deriving DecidableEq

/-- POST /api/affiliates including the requireAdmin gate. -/
def upsertAdmin (provided expected : Option String) (affs : List Affiliate)
    (b : AffBody) : AdminGated UpsertRes × List Affiliate :=
  if requireAdmin provided expected then
    (AdminGated.allowed (upsert affs b).1, (upsert affs b).2)
  else (.unauthorized, affs)

/-- DELETE /api/affiliates/:id including the requireAdmin gate. -/
def removeAdmin (provided expected : Option String) (affs : List Affiliate)
    (v : Int) : AdminGated RemoveRes × List Affiliate :=
  if requireAdmin provided expected then
    (AdminGated.allowed (remove affs v).1, (remove affs v).2)
  else (.unauthorized, affs)

/-- Client-side fallback filtering from the browser script searchItems:
trim and lowercase the query; an empty trimmed query yields the whole
fallback list (fetchItems resolves to the fallback list when the API is
unreachable); otherwise keep the fallback items whose lowercased
name-space-description text includes the processed query. -/
def clientSearchFallback (query : String) : List FItem :=
  let q := jsToLower (jsTrim query)
  if !(strTruthy q) then fallbackItems
  else fallbackItems.filter (fun item =>
    jsIncludes (jsToLower (item.name ++ " " ++ item.description)) q)

/-- Sample stored affiliate used by concrete witnesses. -/
def sampleAff : Affiliate :=
  { id := 3, name := "old", link := "ol", banner := none,
    description := none, categories := none }

/-- Sample update body carrying an id unknown to the sample store. -/
def sampleBody9 : AffBody :=
  { id := some 9, name := "new", link := "nl", banner := none,
    description := none, categories := none }

/-- Sample update body carrying the id of the sample store record. -/
def sampleBody3 : AffBody :=
  { id := some 3, name := "new", link := "nl", banner := none,
    description := none, categories := none }

/-- Sample create body carrying no id. -/
def sampleBodyNew : AffBody :=
  { id := none, name := "x", link := "y", banner := none,
    description := none, categories := none }

/-- Sample body carrying the falsy id zero. -/
def sampleBodyZero : AffBody :=
  { id := some 0, name := "n", link := "l", banner := none,
    description := none, categories := none }

/-- Sample stored affiliate with id five. -/
def sampleAff5 : Affiliate :=
  { id := 5, name := "n", link := "l", banner := none,
    description := none, categories := none }

/-- startsChars decides the does-it-start-with relation. -/
theorem startsChars_iff (p : List Char) :
    ∀ l, startsChars p l = true ↔ ∃ t, l = p ++ t := by
  induction p with
  | nil =>
    intro l
    simp [startsChars]
  | cons p ps ih =>
    intro l
    cases l with
    | nil =>
      simp [startsChars]
    | cons c cs =>
      simp only [startsChars, Bool.and_eq_true, beq_iff_eq, ih cs,
        List.cons_append, List.cons.injEq]
      constructor
      · rintro ⟨hpc, t, ht⟩
        exact ⟨t, hpc.symm, ht⟩
      · rintro ⟨t, hcp, ht⟩
        exact ⟨hcp.symm, t, ht⟩

/-- containsChars decides contiguous-occurrence of the pattern. -/
theorem containsChars_iff (pat : List Char) :
    ∀ l, containsChars pat l = true ↔ ∃ pre post, l = pre ++ pat ++ post := by
  intro l
  induction l with
  | nil =>
    simp only [containsChars, List.isEmpty_iff]
    constructor
    · intro h
      exact ⟨[], [], by simp [h]⟩
    · rintro ⟨pre, post, h⟩
      rcases List.append_eq_nil.mp h.symm with ⟨h1, h2⟩
      exact (List.append_eq_nil.mp h1).2
  | cons c cs ih =>
    simp only [containsChars, Bool.or_eq_true, startsChars_iff, ih]
    constructor
    · rintro (⟨t, ht⟩ | ⟨pre, post, h⟩)
      · exact ⟨[], t, by simp [ht]⟩
      · exact ⟨c :: pre, post, by simp [h]⟩
    · rintro ⟨pre, post, h⟩
      cases pre with
      | nil =>
        left
        exact ⟨post, by simpa using h⟩
      | cons x xs =>
        right
        rw [List.cons_append, List.cons_append] at h
        injection h with h1 h2
        exact ⟨xs, post, h2⟩

/-- jsIncludes decides substring containment, stated on character data. -/
theorem jsIncludes_iff (s pat : String) :
    jsIncludes s pat = true ↔ ∃ pre post, s.data = pre ++ pat.data ++ post :=
  containsChars_iff pat.data s.data

/-- Lowercasing maps the empty string, and only it, to the empty string. -/
theorem jsToLower_eq_empty_iff (s : String) : jsToLower s = "" ↔ s = "" := by
  cases s with
  | mk d =>
    cases d with
    | nil => simp [jsToLower]
    | cons a l =>
      constructor
      · intro h
        have hd : (jsToLower (String.mk (a :: l))).data = ("" : String).data := by
          rw [h]
        simp [jsToLower] at hd
      · intro h
        have hd : ((String.mk (a :: l)) : String).data = ("" : String).data := by
          rw [h]
        simp at hd

/-- String truthiness is falsity of the empty-string test. -/
theorem strTruthy_eq_false_iff (s : String) : strTruthy s = false ↔ s = "" := by
  cases s with
  | mk d =>
    cases d with
    | nil => simp [strTruthy]
    | cons a l =>
      simp [strTruthy]
      intro h
      have hd : ((String.mk (a :: l)) : String).data = ("" : String).data := by
        rw [h]
      simp at hd

/-- C1, counterexample.  The claim promises the entire catalog for every
whitespace-only query, and matching against the trimmed query in
general; the handler never trims.  On the tab-only query, which JS trim
sends to the empty string, the handler filters by the raw tab character
and returns the empty result instead of the whole catalog. -/
theorem serverSearch_whitespace_cex :
    jsTrim "\t" = "" ∧ serverSearch "\t" itemsJson = [] ∧ itemsJson ≠ [] := by
  refine ⟨by decide, by decide, by decide⟩

/-- C1, amended.  The search handler lowercases the query but does not
trim it: when the lowercased query is empty the whole catalog is
returned; otherwise the result is the order-preserving sublist of
exactly the catalog items whose lowercased search text contains the
lowercased query as a contiguous substring. -/
theorem serverSearch_spec (q : String) (catalog : List Item) :
    (jsToLower q = "" → serverSearch q catalog = catalog) ∧
    (jsToLower q ≠ "" →
      (serverSearch q catalog).Sublist catalog ∧
      ∀ it : Item, it ∈ serverSearch q catalog ↔
        it ∈ catalog ∧
        ∃ pre post, (jsToLower it.search).data =
          pre ++ (jsToLower q).data ++ post) := by
  constructor
  · intro h
    have ht : strTruthy (jsToLower q) = false := (strTruthy_eq_false_iff _).mpr h
    simp [serverSearch, ht]
  · intro h
    have ht : strTruthy (jsToLower q) = true := by
      cases hb : strTruthy (jsToLower q) with
      | false => exact absurd ((strTruthy_eq_false_iff _).mp hb) h
      | true => rfl
    constructor
    · simp only [serverSearch, ht, Bool.not_true, Bool.false_eq_true, if_false]
      exact List.filter_sublist catalog
    · intro it
      simp only [serverSearch, ht, Bool.not_true, Bool.false_eq_true, if_false]
      rw [List.mem_filter, jsIncludes_iff]

/-- C1, witness for the amended theorem at concrete inputs. -/
theorem serverSearch_spec_witness :
    serverSearch "" itemsJson = itemsJson ∧
    (serverSearch "zzz" itemsJson).Sublist itemsJson :=
  ⟨(serverSearch_spec "" itemsJson).1 (by decide),
   ((serverSearch_spec "zzz" itemsJson).2 (by decide)).1⟩

/-- String truthiness holds exactly off the empty string. -/
theorem strTruthy_eq_true_iff (s : String) : strTruthy s = true ↔ s ≠ "" := by
  rw [ne_eq, ← strTruthy_eq_false_iff]
  cases strTruthy s <;> simp

/-- Lowercasing preserves nonemptiness. -/
theorem jsToLower_ne_empty {s : String} (h : s ≠ "") : jsToLower s ≠ "" :=
  fun hc => h ((jsToLower_eq_empty_iff s).mp hc)

/-- Subscribe rejects a duplicate: when some stored address has the same
lowercasing as the nonempty posted email, the handler answers duplicate
and keeps the store. -/
theorem subscribe_dup_of_exists (subs : List String) (s : String) (hs : s ≠ "")
    (h : ∃ e ∈ subs, jsToLower e = jsToLower s) :
    subscribe subs (.str s) = (.duplicate, subs) := by
  have hfind : (subs.find? (fun e => jsToLower e == jsToLower s)).isSome = true := by
    rw [List.find?_isSome]
    obtain ⟨e, he, heq⟩ := h
    exact ⟨e, he, beq_iff_eq.mpr heq⟩
  obtain ⟨e₀, he₀⟩ := Option.isSome_iff_exists.mp hfind
  have heq₀ : jsToLower e₀ = jsToLower s :=
    beq_iff_eq.mp
      (@List.find?_some String (fun e => jsToLower e == jsToLower s) e₀ subs he₀)
  have he₀ne : e₀ ≠ "" := by
    intro hc
    apply jsToLower_ne_empty hs
    rw [← heq₀, hc]
    rfl
  have hst : strTruthy s = true := (strTruthy_eq_true_iff s).mpr hs
  have hte : strTruthy e₀ = true := (strTruthy_eq_true_iff e₀).mpr he₀ne
  simp [subscribe, hst, he₀, hte]

/-- Subscribe appends: when no stored address shares the lowercasing of
the nonempty posted email, the handler answers ok and appends it. -/
theorem subscribe_ok_of_forall (subs : List String) (s : String) (hs : s ≠ "")
    (h : ∀ e ∈ subs, jsToLower e ≠ jsToLower s) :
    subscribe subs (.str s) = (.ok, subs ++ [s]) := by
  have hfind : subs.find? (fun e => jsToLower e == jsToLower s) = none := by
    rw [List.find?_eq_none]
    intro e he
    simpa using h e he
  have hst : strTruthy s = true := (strTruthy_eq_true_iff s).mpr hs
  simp [subscribe, hst, hfind]

/-- C2, counterexample.  The empty string is present and is a string, and
the store holds no duplicate of it, so the claim promises a successful
append; the handler instead rejects it as invalid input, because JS
truthiness conflates the empty string with a missing field. -/
theorem subscribe_empty_string_cex :
    subscribe [] (JsField.str "") = (SubscribeRes.invalidInput, []) ∧
    (∀ e ∈ ([] : List String), jsToLower e ≠ jsToLower "") := by
  exact ⟨by decide, by decide⟩

/-- C2, amended.  Subscribe fails with invalid input when the email is
missing, not a string, or the empty string; fails with duplicate, store
unchanged, when a stored address is equal under lowercasing; otherwise
appends the address and succeeds.  Subscribing a nonempty email and then
any recasing of it yields ok then duplicate. -/
theorem subscribe_spec (subs : List String) :
    subscribe subs .missing = (.invalidInput, subs) ∧
    subscribe subs .notString = (.invalidInput, subs) ∧
    subscribe subs (.str "") = (.invalidInput, subs) ∧
    (∀ s : String, s ≠ "" →
      ((∃ e ∈ subs, jsToLower e = jsToLower s) →
        subscribe subs (.str s) = (.duplicate, subs)) ∧
      ((∀ e ∈ subs, jsToLower e ≠ jsToLower s) →
        subscribe subs (.str s) = (.ok, subs ++ [s]))) ∧
    (∀ s t : String, s ≠ "" → jsToLower t = jsToLower s →
      (∀ e ∈ subs, jsToLower e ≠ jsToLower s) →
      subscribe subs (.str s) = (.ok, subs ++ [s]) ∧
      subscribe (subs ++ [s]) (.str t) = (.duplicate, subs ++ [s])) := by
  refine ⟨rfl, rfl, by simp [subscribe, strTruthy], ?_, ?_⟩
  · intro s hs
    exact ⟨subscribe_dup_of_exists subs s hs, subscribe_ok_of_forall subs s hs⟩
  · intro s t hs hts hall
    have ht : t ≠ "" := by
      intro hc
      apply jsToLower_ne_empty hs
      rw [← hts, hc]
      rfl
    refine ⟨subscribe_ok_of_forall subs s hs hall, ?_⟩
    apply subscribe_dup_of_exists (subs ++ [s]) t ht
    exact ⟨s, List.mem_append_right subs (List.mem_singleton_self s), hts.symm⟩

/-- C2, witness for the amended theorem at concrete inputs. -/
theorem subscribe_spec_witness :
    subscribe [] (.str "a@x.com") = (.ok, ["a@x.com"]) ∧
    subscribe ["a@x.com"] (.str "A@X.com") = (.duplicate, ["a@x.com"]) :=
  ⟨((subscribe_spec []).2.2.2.2 "a@x.com" "a@x.com" (by decide) rfl
      (by intro e he; cases he)).1,
   ((subscribe_spec ["a@x.com"]).2.2.2.1 "A@X.com" (by decide)).1
      ⟨"a@x.com", List.mem_singleton_self _, by decide⟩⟩

/-- findIndex misses exactly when no element satisfies the test. -/
theorem jsFindIndex_eq_none_iff (p : α → Bool) :
    ∀ l : List α, jsFindIndex p l = none ↔ ∀ a ∈ l, p a = false := by
  intro l
  induction l with
  | nil => simp [jsFindIndex]
  | cons x xs ih =>
    cases hpx : p x with
    | true => simp [jsFindIndex, hpx]
    | false => simp [jsFindIndex, hpx, Option.map_eq_none', ih]

/-- A found index is in range and points at an element satisfying the
test. -/
theorem jsFindIndex_some (p : α → Bool) :
    ∀ (l : List α) (idx : Nat), jsFindIndex p l = some idx →
      idx < l.length ∧ ∃ a, l[idx]? = some a ∧ p a = true := by
  intro l
  induction l with
  | nil => intro idx h; simp [jsFindIndex] at h
  | cons x xs ih =>
    intro idx h
    cases hpx : p x with
    | true =>
      rw [jsFindIndex, if_pos hpx] at h
      obtain rfl : idx = 0 := (Option.some_inj.mp h).symm
      exact ⟨Nat.succ_pos _, x, by simp, hpx⟩
    | false =>
      rw [jsFindIndex, if_neg (by simp [hpx])] at h
      obtain ⟨j, hj, rfl⟩ := Option.map_eq_some'.mp h
      obtain ⟨hlt, a, ha, hpa⟩ := ih j hj
      exact ⟨Nat.succ_lt_succ hlt, a, by simpa using ha, hpa⟩

/-- The fold seed never exceeds a max fold. -/
theorem le_foldl_max : ∀ (xs : List Int) (x : Int), x ≤ xs.foldl max x := by
  intro xs
  induction xs with
  | nil => intro x; exact le_refl x
  | cons y ys ih => intro x; exact le_trans (le_max_left x y) (ih (max x y))

/-- Every list member is bounded by a max fold over the list. -/
theorem mem_le_foldl_max :
    ∀ (xs : List Int) (x a : Int), a ∈ xs → a ≤ xs.foldl max x := by
  intro xs
  induction xs with
  | nil => intro x a ha; cases ha
  | cons y ys ih =>
    intro x a ha
    rcases List.mem_cons.mp ha with h | h
    · subst h
      exact le_trans (le_max_right x a) (le_foldl_max ys (max x a))
    · exact ih (max x y) a h

/-- jsMax bounds every member of its argument. -/
theorem mem_le_jsMax (ids : List Int) (a : Int) (h : a ∈ ids) :
    a ≤ jsMax ids := by
  cases ids with
  | nil => cases h
  | cons x xs =>
    rcases List.mem_cons.mp h with h | h
    · subst h
      exact le_foldl_max xs a
    · exact mem_le_foldl_max xs x a h

/-- A max fold over a list is the seed or one of the members. -/
theorem foldl_max_mem :
    ∀ (xs : List Int) (x : Int), xs.foldl max x = x ∨ xs.foldl max x ∈ xs := by
  intro xs
  induction xs with
  | nil => intro x; left; rfl
  | cons y ys ih =>
    intro x
    have hstep : (y :: ys).foldl max x = ys.foldl max (max x y) := rfl
    rcases ih (max x y) with h | h
    · rcases max_choice x y with hm | hm
      · left
        rw [hstep, h, hm]
      · right
        rw [hstep, h, hm]
        exact List.mem_cons_self y ys
    · right
      rw [hstep]
      exact List.mem_cons_of_mem y h

/-- On a nonempty list, jsMax is attained by a member. -/
theorem jsMax_mem (ids : List Int) (h : ids ≠ []) : jsMax ids ∈ ids := by
  cases ids with
  | nil => exact absurd rfl h
  | cons x xs =>
    rcases foldl_max_mem xs x with hm | hm
    · rw [jsMax, hm]
      exact List.mem_cons_self x xs
    · exact List.mem_cons_of_mem x hm

/-- C3.  Without a supplied id (and with name and link present), upsert
appends a record whose id is the fresh id: one when the store is empty,
and otherwise strictly above every stored id and equal to one more than
a stored id, hence one more than the stored maximum. -/
theorem upsert_create_spec (affs : List Affiliate) (b : AffBody)
    (hid : b.id = none) (hn : b.name ≠ "") (hl : b.link ≠ "") :
    upsert affs b = (.saved, affs ++ [bodyRecord (newAffId affs) b]) ∧
    (affs = [] → newAffId affs = 1) ∧
    (affs ≠ [] →
      (∀ a ∈ affs, a.id < newAffId affs) ∧
      ∃ a ∈ affs, newAffId affs = a.id + 1) := by
  have hn' : strTruthy b.name = true := (strTruthy_eq_true_iff _).mpr hn
  have hl' : strTruthy b.link = true := (strTruthy_eq_true_iff _).mpr hl
  refine ⟨by simp [upsert, hn', hl', hid, idTruthy], ?_, ?_⟩
  · intro h
    simp [h, newAffId]
  · intro h
    have hlen : affs.length > 0 := List.length_pos.mpr h
    have hval : newAffId affs = jsMax (affs.map (·.id)) + 1 := by
      simp [newAffId, hlen]
    constructor
    · intro a ha
      rw [hval]
      exact Int.lt_add_one_iff.mpr (mem_le_jsMax _ _ (List.mem_map_of_mem _ ha))
    · have hmem : jsMax (affs.map (·.id)) ∈ affs.map (·.id) :=
        jsMax_mem _ (fun hc => h (List.map_eq_nil_iff.mp hc))
      obtain ⟨a, ha, haid⟩ := List.mem_map.mp hmem
      exact ⟨a, ha, by rw [hval, haid]⟩

/-- C3, witness: creating into a store whose maximum id is five yields id
six, appended at the end. -/
theorem upsert_create_spec_witness :
    upsert [sampleAff5] sampleBodyNew =
      (.saved, [sampleAff5, bodyRecord 6 sampleBodyNew]) :=
  (upsert_create_spec [sampleAff5] sampleBodyNew rfl (by decide) (by decide)).1

/-- C10.  A supplied id of zero is falsy, so upsert skips the update path
entirely: it appends a brand-new record under a freshly assigned id and
can never answer not-found, even though an id was supplied. -/
theorem upsert_zero_id_creates (affs : List Affiliate) (b : AffBody)
    (hid : b.id = some 0) (hn : b.name ≠ "") (hl : b.link ≠ "") :
    upsert affs b = (.saved, affs ++ [bodyRecord (newAffId affs) b]) ∧
    ∀ st, upsert affs b ≠ (.notFound, st) := by
  have hn' : strTruthy b.name = true := (strTruthy_eq_true_iff _).mpr hn
  have hl' : strTruthy b.link = true := (strTruthy_eq_true_iff _).mpr hl
  have h1 : upsert affs b = (.saved, affs ++ [bodyRecord (newAffId affs) b]) := by
    simp [upsert, hn', hl', hid, idTruthy]
  exact ⟨h1, fun st hc => by rw [h1] at hc; simp at hc⟩

/-- C10, witness: posting id zero with a fresh name into the empty store
creates record one. -/
theorem upsert_zero_id_creates_witness :
    upsert [] sampleBodyZero = (.saved, [bodyRecord 1 sampleBodyZero]) :=
  (upsert_zero_id_creates [] sampleBodyZero rfl (by decide) (by decide)).1

/-- C4, counterexample.  The body supplies the id zero on an empty store,
so no stored record has that id and the claim promises not-found with
the store unchanged; the handler instead creates and appends a new
record, because the supplied zero id is falsy. -/
theorem upsert_supplied_id_cex :
    upsert [] sampleBodyZero = (.saved, [bodyRecord 1 sampleBodyZero]) ∧
    upsert [] sampleBodyZero ≠ (.notFound, []) ∧
    (∀ a ∈ ([] : List Affiliate), a.id ≠ (0 : Int)) := by
  exact ⟨by decide, by decide, by decide⟩

/-- C4, amended.  For a supplied nonzero id (and name and link present):
if no stored record carries that id, upsert answers not-found and leaves
the store unchanged; if the id is found at a position, upsert keeps the
length, rewrites exactly that position to the posted record under that
id, and leaves every other position untouched. -/
theorem upsert_update_spec (affs : List Affiliate) (b : AffBody) (v : Int)
    (hid : b.id = some v) (hv : v ≠ 0) (hn : b.name ≠ "") (hl : b.link ≠ "") :
    ((∀ a ∈ affs, a.id ≠ v) → upsert affs b = (.notFound, affs)) ∧
    (∀ idx, jsFindIndex (fun a => a.id == v) affs = some idx →
      ∃ st, upsert affs b = (.saved, st) ∧
        st.length = affs.length ∧
        st[idx]? = some (bodyRecord v b) ∧
        (∀ j, j ≠ idx → st[j]? = affs[j]?) ∧
        affs[idx]?.map (·.id) = some v) := by
  have hn' : strTruthy b.name = true := (strTruthy_eq_true_iff _).mpr hn
  have hl' : strTruthy b.link = true := (strTruthy_eq_true_iff _).mpr hl
  have hidt : idTruthy (some v) = true := by
    simp [idTruthy, bne_iff_ne, hv]
  constructor
  · intro h
    have hfi : jsFindIndex (fun a => a.id == v) affs = none :=
      (jsFindIndex_eq_none_iff _ affs).mpr (fun a ha => by simp [h a ha])
    simp [upsert, hn', hl', hidt, hid, hfi]
  · intro idx hfi
    obtain ⟨hlt, a, ha, hpa⟩ := jsFindIndex_some _ affs idx hfi
    refine ⟨affs.set idx (bodyRecord v b),
      by simp [upsert, hn', hl', hidt, hid, hfi], ?_, ?_, ?_, ?_⟩
    · exact List.length_set affs idx _
    · exact List.getElem?_set_self hlt
    · intro j hj
      exact List.getElem?_set_ne (Ne.symm hj)
    · rw [ha]
      simp [beq_iff_eq.mp hpa]

/-- C4, witness: updating id three replaces the record in place, and an
unknown id nine answers not-found with the store kept. -/
theorem upsert_update_spec_witness :
    upsert [sampleAff] sampleBody9 = (.notFound, [sampleAff]) ∧
    ∃ st, upsert [sampleAff] sampleBody3 = (.saved, st) ∧ st.length = 1 := by
  constructor
  · exact (upsert_update_spec [sampleAff] sampleBody9 9 rfl (by decide)
      (by decide) (by decide)).1 (by decide)
  · obtain ⟨st, h1, h2, _⟩ :=
      (upsert_update_spec [sampleAff] sampleBody3 3 rfl (by decide) (by decide)
        (by decide)).2 0 (by decide)
    exact ⟨st, h1, h2⟩

/-- Remove misses when no stored record carries the id. -/
theorem remove_notFound_of_forall (affs : List Affiliate) (v : Int)
    (h : ∀ a ∈ affs, a.id ≠ v) : remove affs v = (.notFound, affs) := by
  have hfi : jsFindIndex (fun a => a.id == v) affs = none :=
    (jsFindIndex_eq_none_iff _ affs).mpr (fun a ha => by simp [h a ha])
  simp [remove, hfi]

/-- Under distinct stored ids, removing a present id is exactly filtering
it out, and the store shrinks by one. -/
theorem remove_found_eq_filter :
    ∀ (affs : List Affiliate) (v : Int),
      (affs.map (·.id)).Nodup → (∃ a ∈ affs, a.id = v) →
      remove affs v = (.removed, affs.filter (fun a => !(a.id == v))) ∧
      (affs.filter (fun a => !(a.id == v))).length + 1 = affs.length := by
  intro affs
  induction affs with
  | nil =>
    intro v _ hex
    obtain ⟨a, ha, _⟩ := hex
    cases ha
  | cons x xs ih =>
    intro v hnd hex
    rw [List.map_cons, List.nodup_cons] at hnd
    by_cases hx : x.id = v
    · have hvxs : ∀ a ∈ xs, a.id ≠ v := by
        intro a ha hc
        exact hnd.1 (by rw [hx, ← hc]; exact List.mem_map_of_mem _ ha)
      have hfilter : xs.filter (fun a => !(a.id == v)) = xs :=
        List.filter_eq_self.mpr (fun a ha => by simp [hvxs a ha])
      constructor
      · simp [remove, jsFindIndex, hx, List.filter_cons, hfilter]
      · simp [List.filter_cons, hx, hfilter]
    · have hex' : ∃ a ∈ xs, a.id = v := by
        obtain ⟨a, ha, hav⟩ := hex
        rcases List.mem_cons.mp ha with h | h
        · exact absurd (h ▸ hav) hx
        · exact ⟨a, h, hav⟩
      obtain ⟨h1, h2⟩ := ih v hnd.2 hex'
      cases hj : jsFindIndex (fun a => a.id == v) xs with
      | none =>
        simp [remove, hj] at h1
      | some j =>
        have herase : xs.eraseIdx j = xs.filter (fun a => !(a.id == v)) := by
          have h1' := h1
          simp only [remove, hj] at h1'
          exact (Prod.mk.injEq _ _ _ _).mp h1' |>.2
        constructor
        · simp [remove, jsFindIndex, hx, hj, List.eraseIdx_cons_succ, herase,
            List.filter_cons]
        · have hpredx : (!(x.id == v)) = true := by simp [hx]
          rw [List.filter_cons, if_pos hpredx, List.length_cons, List.length_cons]
          omega

/-- C5.  Removal answers not-found and keeps the store when no record
carries the id; under the store invariant of distinct ids, removing a
present id drops exactly the record carrying it and shrinks the store by
one, and removing it a second time answers not-found with the store
unchanged. -/
theorem remove_spec (affs : List Affiliate) (v : Int) :
    ((∀ a ∈ affs, a.id ≠ v) → remove affs v = (.notFound, affs)) ∧
    ((affs.map (·.id)).Nodup → (∃ a ∈ affs, a.id = v) →
      ∃ st, remove affs v = (.removed, st) ∧
        st = affs.filter (fun a => !(a.id == v)) ∧
        st.length + 1 = affs.length ∧
        remove st v = (.notFound, st)) := by
  constructor
  · exact remove_notFound_of_forall affs v
  · intro hnd hex
    obtain ⟨h1, h2⟩ := remove_found_eq_filter affs v hnd hex
    refine ⟨_, h1, rfl, h2, ?_⟩
    apply remove_notFound_of_forall
    intro a ha
    have hmem := List.mem_filter.mp ha
    simpa using hmem.2

/-- C5, witness: on the one-record store, removing an unknown id answers
not-found, removing the present id empties the store, and a repeated
removal answers not-found with the store unchanged. -/
theorem remove_spec_witness :
    remove [sampleAff] 9 = (.notFound, [sampleAff]) ∧
    ∃ st, remove [sampleAff] 3 = (.removed, st) ∧ st.length + 1 = 1 ∧
      remove st 3 = (.notFound, st) := by
  constructor
  · exact (remove_spec [sampleAff] 9).1 (by decide)
  · obtain ⟨st, ha, _, hc, hd⟩ :=
      (remove_spec [sampleAff] 3).2 (by decide) ⟨sampleAff, by decide, by decide⟩
    exact ⟨st, ha, hc, hd⟩

/-- Counting fulfilled outcomes over the mapped sends counts the
subscribers whose send fulfills. -/
theorem countFulfilled_eq (l : List String) (f : String → Bool) :
    ((l.map f).filter (fun r => r)).length = (l.filter f).length := by
  rw [List.filter_map, List.length_map]
  exact congrArg List.length (List.filter_congr (fun x hx => rfl))

/-- Counting rejected outcomes over the mapped sends counts the
subscribers whose send rejects. -/
theorem countRejected_eq (l : List String) (f : String → Bool) :
    ((l.map f).filter (fun r => !r)).length =
      (l.filter (fun e => !(f e))).length := by
  rw [List.filter_map, List.length_map]
  exact congrArg List.length (List.filter_congr (fun x hx => rfl))

/-- Fulfilled and rejected sends partition the subscriber list. -/
theorem count_add (l : List String) (f : String → Bool) :
    (l.filter f).length + (l.filter (fun e => !(f e))).length = l.length := by
  induction l with
  | nil => rfl
  | cons x xs ih =>
    cases hf : f x <;> simp [List.filter_cons, hf] <;> omega

/-- C6, counterexample.  With three subscribers and one rejected send the
handler reports the aggregate counts, but inside the longer sentence
Notification sent colon-prefixed and full-stop-terminated, not as the
bare string the claim promises. -/
theorem notify_message_cex :
    notify ["a@x.com", "b@x.com", "c@x.com"] (fun e => !(e == "c@x.com"))
      (some "S") (some "C") =
      .sent "Notification sent: 2 succeeded, 1 failed." ∧
    "Notification sent: 2 succeeded, 1 failed." ≠ "2 succeeded, 1 failed" := by
  exact ⟨by decide, by decide⟩

/-- C6, amended.  Notify answers bad-request when subject or content is
missing or empty; otherwise it settles one send per subscriber and
reports the message Notification sent colon n succeeded comma m failed
full stop, where n counts the fulfilled sends, m the rejected ones, and
n plus m equals the number of subscribers. -/
theorem notify_spec (subs : List String) (sendOk : String → Bool)
    (subject content : Option String) :
    ((subject = none ∨ subject = some "" ∨ content = none ∨ content = some "") →
      notify subs sendOk subject content = .badRequest) ∧
    (∀ s c : String, subject = some s → s ≠ "" → content = some c → c ≠ "" →
      notify subs sendOk subject content =
        .sent ("Notification sent: " ++
          toString (subs.filter sendOk).length ++ " succeeded, " ++
          toString (subs.filter (fun e => !(sendOk e))).length ++ " failed.") ∧
      (subs.filter sendOk).length +
        (subs.filter (fun e => !(sendOk e))).length = subs.length) := by
  constructor
  · rintro (h | h | h | h) <;> subst h <;>
      simp [notify, optTruthy, strTruthy]
  · intro s c hsub hs hcon hc
    subst hsub
    subst hcon
    have hs' : optTruthy (some s) = true := (strTruthy_eq_true_iff s).mpr hs
    have hc' : optTruthy (some c) = true := (strTruthy_eq_true_iff c).mpr hc
    constructor
    · simp [notify, hs', hc', countFulfilled_eq, countRejected_eq]
    · exact count_add subs sendOk

/-- C6, witness: three subscribers with one rejected send report two
succeeded and one failed, and the counts sum to three. -/
theorem notify_spec_witness :
    notify ["a@x.com", "b@x.com", "c@x.com"] (fun e => !(e == "b@x.com"))
      (some "Subject") (some "Content") =
      .sent "Notification sent: 2 succeeded, 1 failed." := by
  have h := ((notify_spec ["a@x.com", "b@x.com", "c@x.com"]
    (fun e => !(e == "b@x.com")) (some "Subject") (some "Content")).2
    "Subject" "Content" rfl (by decide) rfl (by decide)).1
  exact h

/-- C7, counterexample.  When the configured secret is the empty string
(set but empty) and no token is supplied, the claim demands unauthorized
with the store unchanged; the middleware treats the falsy configured
secret as unconfigured and lets the mutation proceed to create a
record. -/
theorem adminGate_empty_secret_cex :
    requireAdmin none (some "") = true ∧
    upsertAdmin none (some "") [] sampleBodyNew =
      (.allowed .saved, [bodyRecord 1 sampleBodyNew]) := by
  exact ⟨by decide, by decide⟩

/-- C7, amended.  With a configured nonempty secret, a missing or
different token makes both mutating routes answer unauthorized with the
store unchanged, and the exact token lets them run the handler; with no
configured secret, or a configured empty secret, every caller passes and
the handler runs. -/
theorem adminGate_spec (provided expected : Option String)
    (affs : List Affiliate) (b : AffBody) (v : Int) :
    (∀ e : String, expected = some e → e ≠ "" →
      (provided = none ∨ (∃ p, provided = some p ∧ p ≠ e)) →
      upsertAdmin provided expected affs b = (.unauthorized, affs) ∧
      removeAdmin provided expected affs v = (.unauthorized, affs)) ∧
    (∀ e : String, expected = some e → e ≠ "" → provided = some e →
      upsertAdmin provided expected affs b =
        (.allowed (upsert affs b).1, (upsert affs b).2) ∧
      removeAdmin provided expected affs v =
        (.allowed (remove affs v).1, (remove affs v).2)) ∧
    ((expected = none ∨ expected = some "") →
      upsertAdmin provided expected affs b =
        (.allowed (upsert affs b).1, (upsert affs b).2) ∧
      removeAdmin provided expected affs v =
        (.allowed (remove affs v).1, (remove affs v).2)) := by
  refine ⟨?_, ?_, ?_⟩
  · intro e hexp he hprov
    have hse : strTruthy e = true := (strTruthy_eq_true_iff e).mpr he
    have hra : requireAdmin provided expected = false := by
      subst hexp
      rcases hprov with h | ⟨p, hp, hpe⟩
      · subst h
        simp [requireAdmin, optTruthy, hse]
      · subst hp
        by_cases hpz : p = ""
        · subst hpz
          have hsz : strTruthy "" = false := by decide
          simp [requireAdmin, optTruthy, hse, hsz]
        · have hsp : strTruthy p = true := (strTruthy_eq_true_iff p).mpr hpz
          simp [requireAdmin, optTruthy, hse, hsp, hpe]
    simp [upsertAdmin, removeAdmin, hra]
  · intro e hexp he hprov
    have hse : strTruthy e = true := (strTruthy_eq_true_iff e).mpr he
    have hra : requireAdmin provided expected = true := by
      subst hexp
      subst hprov
      simp [requireAdmin, optTruthy, hse]
    simp [upsertAdmin, removeAdmin, hra]
  · intro hexp
    have hra : requireAdmin provided expected = true := by
      rcases hexp with h | h <;> subst h <;>
        simp [requireAdmin, optTruthy, strTruthy]
    simp [upsertAdmin, removeAdmin, hra]

/-- C7, witness: with the secret configured, a missing token leaves both
stores unchanged and unauthorized. -/
theorem adminGate_spec_witness :
    upsertAdmin none (some "secret") [] sampleBodyNew = (.unauthorized, []) ∧
    removeAdmin none (some "secret") [sampleAff] 3 =
      (.unauthorized, [sampleAff]) := by
  constructor
  · exact ((adminGate_spec none (some "secret") [] sampleBodyNew 3).1 "secret"
      rfl (by decide) (Or.inl rfl)).1
  · exact ((adminGate_spec none (some "secret") [sampleAff] sampleBodyNew 3).1
      "secret" rfl (by decide) (Or.inl rfl)).2

/-- Setting a position to the value it already holds leaves the list
unchanged. -/
theorem set_of_getElem?_eq {α : Type} :
    ∀ (l : List α) (i : Nat) (a : α), l[i]? = some a → l.set i a = l := by
  intro l
  induction l with
  | nil =>
    intro i a h
    simp at h
  | cons x xs ih =>
    intro i a h
    cases i with
    | zero =>
      have hx : x = a := by simpa using h
      rw [List.set_cons_zero, ← hx]
    | succ n =>
      simp only [List.getElem?_cons_succ] at h
      rw [List.set_cons_succ, ih n a h]

/-- C8.  Every mutation preserves the two store invariants: the
subscriber store stays free of lowercase-equal duplicates across any
subscribe outcome, and the affiliate id list stays duplicate-free across
any upsert or remove outcome, given each invariant held before. -/
theorem mutations_preserve_invariants :
    (∀ (subs : List String) (inp : JsField),
      List.Pairwise (fun a b : String => jsToLower a ≠ jsToLower b) subs →
      List.Pairwise (fun a b : String => jsToLower a ≠ jsToLower b)
        (subscribe subs inp).2) ∧
    (∀ (affs : List Affiliate) (b : AffBody),
      (affs.map (·.id)).Nodup → ((upsert affs b).2.map (·.id)).Nodup) ∧
    (∀ (affs : List Affiliate) (v : Int),
      (affs.map (·.id)).Nodup → ((remove affs v).2.map (·.id)).Nodup) := by
  refine ⟨?_, ?_, ?_⟩
  · intro subs inp hpw
    cases inp with
    | missing => exact hpw
    | notString => exact hpw
    | str s =>
      cases hst : strTruthy s with
      | false =>
        have hres : (subscribe subs (.str s)).2 = subs := by
          simp [subscribe, hst]
        rw [hres]
        exact hpw
      | true =>
        cases hfind : subs.find? (fun e => jsToLower e == jsToLower s) with
        | none =>
          have hall : ∀ e ∈ subs, jsToLower e ≠ jsToLower s := by
            intro e he
            simpa using List.find?_eq_none.mp hfind e he
          have hres : (subscribe subs (.str s)).2 = subs ++ [s] := by
            simp [subscribe, hst, hfind]
          rw [hres, List.pairwise_append]
          refine ⟨hpw, by simp, ?_⟩
          intro a ha b hb
          rw [List.mem_singleton] at hb
          subst hb
          exact hall a ha
        | some e =>
          cases hte : strTruthy e with
          | true =>
            have hres : (subscribe subs (.str s)).2 = subs := by
              simp [subscribe, hst, hfind, hte]
            rw [hres]
            exact hpw
          | false =>
            have heq : jsToLower e = jsToLower s :=
              beq_iff_eq.mp
                (@List.find?_some String
                  (fun e => jsToLower e == jsToLower s) e subs hfind)
            have he : e = "" := (strTruthy_eq_false_iff e).mp hte
            have hs0 : jsToLower s = "" := by
              rw [← heq, he]
              rfl
            have hse : s = "" := (jsToLower_eq_empty_iff s).mp hs0
            exact absurd (hse ▸ hst) (by decide)
  · intro affs b hnd
    cases hval : (!(strTruthy b.name) || !(strTruthy b.link)) with
    | true =>
      have hres : (upsert affs b).2 = affs := by
        simp only [upsert, hval, if_true]
      rw [hres]
      exact hnd
    | false =>
      cases hit : idTruthy b.id with
      | false =>
        have hres : (upsert affs b).2 = affs ++ [bodyRecord (newAffId affs) b] := by
          simp [upsert, hval, hit]
        rw [hres, List.map_append, List.nodup_append]
        refine ⟨hnd, by simp, ?_⟩
        intro x hx hx'
        simp only [List.map_cons, List.map_nil, List.mem_singleton,
          bodyRecord] at hx'
        subst hx'
        by_cases hne : affs = []
        · subst hne
          simp at hx
        · have h1 : newAffId affs = jsMax (affs.map (·.id)) + 1 := by
            simp [newAffId, List.length_pos.mpr hne]
          have h2 := mem_le_jsMax (affs.map (·.id)) _ hx
          omega
      | true =>
        cases hfi : jsFindIndex (fun a => a.id == (b.id.getD 0)) affs with
        | none =>
          have hres : (upsert affs b).2 = affs := by
            simp [upsert, hval, hit, hfi]
          rw [hres]
          exact hnd
        | some idx =>
          have hres : (upsert affs b).2 =
              affs.set idx (bodyRecord (b.id.getD 0) b) := by
            simp [upsert, hval, hit, hfi]
          obtain ⟨hlt, a, ha, hpa⟩ := jsFindIndex_some _ affs idx hfi
          have hmap : (affs.set idx (bodyRecord (b.id.getD 0) b)).map (·.id) =
              (affs.map (·.id)).set idx (b.id.getD 0) := by
            rw [List.map_set]
            rfl
          have hgm : (affs.map (·.id))[idx]? = some (b.id.getD 0) := by
            rw [List.getElem?_map, ha]
            simp [beq_iff_eq.mp hpa]
          rw [hres, hmap, set_of_getElem?_eq _ idx _ hgm]
          exact hnd
  · intro affs v hnd
    cases hfi : jsFindIndex (fun a => a.id == v) affs with
    | none =>
      have hres : (remove affs v).2 = affs := by
        simp [remove, hfi]
      rw [hres]
      exact hnd
    | some idx =>
      have hres : (remove affs v).2 = affs.eraseIdx idx := by
        simp [remove, hfi]
      rw [hres]
      exact List.Sublist.nodup
        (List.Sublist.map _ (List.eraseIdx_sublist affs idx)) hnd

/-- C8, witness at concrete stores: a fresh subscription, a create-path
upsert and a removal all keep the invariants. -/
theorem mutations_preserve_invariants_witness :
    List.Pairwise (fun a b : String => jsToLower a ≠ jsToLower b)
      (subscribe [] (.str "a@x.com")).2 ∧
    ((upsert [sampleAff5] sampleBodyNew).2.map (·.id)).Nodup ∧
    ((remove [sampleAff] 3).2.map (·.id)).Nodup :=
  ⟨mutations_preserve_invariants.1 [] (.str "a@x.com") List.Pairwise.nil,
   mutations_preserve_invariants.2.1 [sampleAff5] sampleBodyNew (by decide),
   mutations_preserve_invariants.2.2 [sampleAff] 3 (by decide)⟩

/-- C9, counterexample.  On the tab-only query the client fallback trims
it to the empty query and yields the whole fallback list, while the
server policy on the same catalog filters by the raw tab character and
yields nothing. -/
theorem client_server_search_cex :
    (clientSearchFallback "\t").length = 9 ∧
    serverSearch "\t" itemsJson = [] ∧
    (clientSearchFallback "\t").map FItem.name ≠
      (serverSearch "\t" itemsJson).map Item.name := by
  exact ⟨by decide, by decide, by decide⟩

/-- C9, amended.  For every query equal to its own trim (no surrounding
whitespace), the client fallback filtering returns the same items in the
same order as the server search over the same catalog; queries that trim
differently can disagree, since only the client trims. -/
theorem client_server_search_agree (q : String) (htrim : jsTrim q = q) :
    (clientSearchFallback q).map FItem.name =
      (serverSearch q itemsJson).map Item.name := by
  by_cases hq : jsToLower q = ""
  · have hq0 : q = "" := (jsToLower_eq_empty_iff q).mp hq
    subst hq0
    decide
  · have ht : strTruthy (jsToLower (jsTrim q)) = true := by
      rw [htrim]
      exact (strTruthy_eq_true_iff _).mpr hq
    have hts : strTruthy (jsToLower q) = true := by
      rw [← htrim] at hq ⊢
      exact ht
    have hkey : ∀ f ∈ fallbackItems,
        jsToLower (jsToLower (f.name ++ " " ++ f.description)) =
          jsToLower (f.name ++ " " ++ f.description) := by decide
    simp only [clientSearchFallback, serverSearch, htrim, ht, hts,
      Bool.not_true, Bool.false_eq_true, if_false, itemsJson,
      List.filter_map]
    rw [List.map_map]
    have hfil :
        fallbackItems.filter
            (fun item =>
              jsIncludes (jsToLower (item.name ++ " " ++ item.description))
                (jsToLower q)) =
          fallbackItems.filter
            ((fun item => jsIncludes (jsToLower item.search) (jsToLower q)) ∘
              toCatalogItem) := by
      apply List.filter_congr
      intro f hf
      simp only [Function.comp, toCatalogItem]
      rw [hkey f hf]
    rw [hfil]
    rfl

/-- C9, witness: the lace query, which has no surrounding whitespace,
yields the same two items on both sides. -/
theorem client_server_search_agree_witness :
    (clientSearchFallback "lace").map FItem.name =
      (serverSearch "lace" itemsJson).map Item.name :=
  client_server_search_agree "lace" (by decide)

end CuratedShop
